import Mathlib

set_option maxRecDepth 8000

/-!
Verification development for the national-strategy dashboard
(`src/App.js`).  The data-transformation pipeline of the source file is
shallowly embedded: spreadsheet cell values, the sheet normalizer
`sheetToRows`, the config resolver, the filter engine, the grouping
engine (`groupBy` with the numeric-prefix key), the status-colour
classifier, and the export projection.  JavaScript exceptions are
modelled with `Except String`; JavaScript strings are Lean `String`s
with the relevant operations (`trim`, `toLowerCase`, `split(",")`,
`includes`, the `\s+` collapse of the status class name, `String(v)`
coercion) implemented over the underlying character lists.
-/

namespace NationalStrategy

/-- Spreadsheet cell values as they reach the pipeline: strings, numbers
(integer-valued cells), or `undefined` (reading past the end of a row
array). -/
inductive Value where
  | str : String → Value
  | num : Int → Value
  | undefined : Value
deriving DecidableEq

/-- Whitespace as matched by JavaScript `trim` / `\s` (ASCII subset). -/
def isWS (c : Char) : Bool := c == ' ' || c == '\t' || c == '\n' || c == '\r'

/-- JavaScript `String.prototype.toLowerCase` (ASCII range). -/
def jsToLower (s : String) : String := String.mk (s.data.map Char.toLower)

/-- JavaScript `String.prototype.trim`: drop whitespace at both ends. -/
def jsTrim (s : String) : String :=
  String.mk (((s.data.dropWhile isWS).reverse.dropWhile isWS).reverse)

/-- The `norm` helper of the source: `trim(s).toLowerCase()`, on strings. -/
def normStr (s : String) : String := jsToLower (jsTrim s)

/-- Digit characters used by JavaScript number-to-string conversion.
Only ever applied to `n % 10` (or `n < 10`). -/
def digitChar (d : Nat) : Char :=
  match d with
  | 0 => '0' | 1 => '1' | 2 => '2' | 3 => '3' | 4 => '4'
  | 5 => '5' | 6 => '6' | 7 => '7' | 8 => '8' | 9 => '9'
  | _ => '0'

/-- Decimal digits of a natural number, fuel-structured so that the
definition evaluates in the kernel.  The fuel is always sufficient
(`natDecimal` passes `n + 1`). -/
def natDecimalAux : Nat → Nat → List Char → List Char
  | 0, _, acc => acc
  | fuel + 1, n, acc =>
    if n < 10 then digitChar n :: acc
    else natDecimalAux fuel (n / 10) (digitChar (n % 10) :: acc)

/-- JavaScript `String(n)` for a non-negative integer. -/
def natDecimal (n : Nat) : String := String.mk (natDecimalAux (n + 1) n [])

/-- JavaScript `String(n)` for an integer. -/
def intDecimal (n : Int) : String :=
  if n < 0 then "-" ++ natDecimal n.natAbs else natDecimal n.toNat

/-- JavaScript `String(v)` coercion of a cell value. -/
def jsString (v : Value) : String :=
  match v with
  | .str s => s
  | .num n => intDecimal n
  | .undefined => "undefined"

/-- JavaScript truthiness of a cell value. -/
def truthy (v : Value) : Bool :=
  match v with
  | .str s => s != ""
  | .num n => n != 0
  | .undefined => false

/-- The `trim` helper of the source: `typeof v === "string" ? v.trim() : v`.
Non-strings pass through untouched. -/
def trimValue (v : Value) : Value :=
  match v with
  | .str s => .str (jsTrim s)
  | v => v

/-- Substring test, JavaScript `haystack.includes(needle)`. -/
def strIncludes (hay pat : String) : Bool :=
  hay.data.tails.any (fun t => pat.data.isPrefixOf t)

/-- `String.prototype.split(",")` — split on each comma, keeping empty
chunks, with one (possibly empty) final chunk. -/
def splitCommaAux (cur : List Char) : List Char → List (List Char)
  | [] => [cur.reverse]
  | c :: rest =>
    if c == ',' then cur.reverse :: splitCommaAux [] rest
    else splitCommaAux (c :: cur) rest

/-- JavaScript `s.split(",")`. -/
def splitComma (s : String) : List String :=
  (splitCommaAux [] s.data).map String.mk

/-- The `hex` helper of the source: prefix `#` when missing, with no
further validation. -/
def jsHexCoerce (c : String) : String :=
  if ("#".data).isPrefixOf c.data then c else "#" ++ c

/-!  ### Records (`sheetToRows`)

A record is a JavaScript object: an insertion-ordered association list
from field names to cell values.  `sheetToRows` creates each record as
`{ id: i }` and then assigns one property per header cell, so the `id`
binding is the first entry; a later assignment to an existing key
overwrites the value in place, as in JavaScript. -/

/-- A normalized record: property list of a JavaScript object. -/
abbrev Record := List (String × Value)

/-- JavaScript property write `obj[k] = v`: overwrite in place if the
key exists, else append. -/
def setField : Record → String → Value → Record
  | [], k, v => [(k, v)]
  | (k', v') :: rest, k, v =>
    if k' == k then (k', v) :: rest else (k', v') :: setField rest k v

/-- JavaScript property read `r[name]` (missing keys give `undefined`). -/
def getField (r : Record) (name : String) : Value :=
  match r.find? (fun p => p.1 == name) with
  | some p => p.2
  | none => .undefined

/-- `Object.values(r)` (property values in insertion order). -/
def recordValues (r : Record) : List Value := r.map Prod.snd

/-- Cell test of the header search: `String(c).toLowerCase().includes("measure")`. -/
def isMeasureCell (c : Value) : Bool :=
  strIncludes (jsToLower (jsString c)) "measure"

/-- `raw.findIndex((r) => r.some((c) => ...measure...))`, as an `Option`
(the JavaScript `-1` result is `none`). -/
def findHeaderIdx : List (List Value) → Option Nat
  | [] => none
  | row :: rest =>
    if row.any isMeasureCell then some 0
    else (findHeaderIdx rest).map (· + 1)

/-- Data-row filter: `r.some((c) => trim(c) !== "")`.  A number or
`undefined` is strictly unequal to the empty string. -/
def cellNonBlank (c : Value) : Bool :=
  match trimValue c with
  | .str s => s != ""
  | _ => true

/-- One record of `sheetToRows`: `{ id: i }` followed by
`obj[h] = trim(row[idx])` for each (already trimmed) header cell `h`;
the object key is the string coercion of the header value. -/
def mkRecord (headers : List Value) (row : List Value) (i : Nat) : Record :=
  headers.enum.foldl
    (fun obj p => setField obj (jsString p.2) (trimValue (row.getD p.1 Value.undefined)))
    [("id", Value.num (Int.ofNat i))]

/-- The sheet normalizer `sheetToRows`.  When no row contains a
"measure" cell, `findIndex` yields `-1` and `raw[-1].map(...)` throws a
`TypeError`, modelled as `Except.error`. -/
def sheetToRows (raw : List (List Value)) : Except String (List Record) :=
  match findHeaderIdx raw with
  | none => .error "TypeError: Cannot read properties of undefined (reading map)"
  | some i =>
    let headers := (raw.getD i []).map trimValue
    let dataRows := (raw.drop (i + 1)).filter (fun row => row.any cellNonBlank)
    .ok (dataRows.enum.map (fun p => mkRecord headers p.2 p.1))

/-! ### Filter engine (section 2.2 of the source) -/

/-- Active filter selections and search query. -/
structure FilterState where
  portfolios : List String
  tags : List String
  query : String

/-- `String(r.Portfolio).split(",").map((p) => norm(p))`. -/
def rowPortfolios (r : Record) : List String :=
  (splitComma (jsString (getField r "Portfolio"))).map normStr

/-- `String(r.Tags).split(",").map((t) => trim(t.toLowerCase()))`. -/
def rowTags (r : Record) : List String :=
  (splitComma (jsString (getField r "Tags"))).map (fun t => jsTrim (jsToLower t))

/-- Portfolio predicate: with no selection every record passes, else
`portfolios.map(norm).some((p) => rowPortfolios.includes(p))`. -/
def portfolioPred (r : Record) (sels : List String) : Bool :=
  sels.isEmpty || (sels.map normStr).any (fun p => (rowPortfolios r).contains p)

/-- Tag predicate: `tags.map((t) => t.toLowerCase()).some((t) => rowTags.includes(t))`
when a tag is selected. -/
def tagPred (r : Record) (sels : List String) : Bool :=
  sels.isEmpty || (sels.map jsToLower).any (fun t => (rowTags r).contains t)

/-- Free-text predicate: active only for a non-empty query;
`Object.values(r).some((v) => String(v).toLowerCase().includes(query.toLowerCase()))`. -/
def queryPred (r : Record) (q : String) : Bool :=
  q == "" || (recordValues r).any
    (fun v => strIncludes (jsToLower (jsString v)) (jsToLower q))

/-- One record passes the filter when all three predicates hold
(the source returns `false` on the first failing check). -/
def passesFilter (r : Record) (st : FilterState) : Bool :=
  portfolioPred r st.portfolios && tagPred r st.tags && queryPred r st.query

/-- The filter engine: `rows.filter(...)` of section 2.2. -/
def filterEngine (rows : List Record) (st : FilterState) : List Record :=
  rows.filter (fun r => passesFilter r st)

/-! ### Export projection (`filteredRows` / `handleExport`) -/

/-- The `filteredRows` helper used by the export path.  In the source its
filter callback has an **empty body** (only a comment), so it returns
`undefined` — falsy — for every row. -/
def filteredRows (rowsArr : List Record) : List Record :=
  rowsArr.filter (fun _ => false)

/-- The per-tab table selection of `handleExport`: for each tab in order,
take the raw rows or `filteredRows` of them, and skip tabs with zero
rows (`if (!tableRows.length) return`). -/
def exportTables (tabs : List String) (rowsByTab : String → List Record)
    (applyFilters : Bool) : List (String × List Record) :=
  tabs.filterMap (fun tabName =>
    let allRows := rowsByTab tabName
    let tableRows := if applyFilters then filteredRows allRows else allRows
    if tableRows.length == 0 then none else some (tabName, tableRows))

/-- `doc.save(applyFilters ? 'strategy_filtered.pdf' : 'strategy_all.pdf')`. -/
def exportFilename (applyFilters : Bool) : String :=
  if applyFilters then "strategy_filtered.pdf" else "strategy_all.pdf"

/-! ### Grouping engine (section 2.3 of the source) -/

/-- The leading `^(\d+)\.(\d+)` match: a non-empty digit run, a literal
dot, and a second non-empty digit run, anchored at the start. -/
def leadingNumPair (s : String) : Option (String × String) :=
  match s.data.span (fun c => c.isDigit) with
  | (d1, rest) =>
    if d1.isEmpty then none
    else
      match rest with
      | '.' :: rest2 =>
        (match rest2.span (fun c => c.isDigit) with
         | (d2, _) =>
           if d2.isEmpty then none
           else some (String.mk d1, String.mk d2))
      | _ => none

/-- The key callback of `groupBy`: try `Category`, `Subcategory`,
`Measures` in order; skip falsy values; `trim(fld)` then `txt.match(...)`
— which throws a `TypeError` when a truthy value is not a string. -/
def groupKeyAux : List Value → Except String String
  | [] => .ok "—"
  | v :: rest =>
    if truthy v then
      match v with
      | .str s =>
        (match leadingNumPair (jsTrim s) with
         | some p => .ok (p.1 ++ "." ++ p.2)
         | none => groupKeyAux rest)
      | _ => .error "TypeError: txt.match is not a function"
    else groupKeyAux rest

/-- Group key of one record. -/
def keyOf (r : Record) : Except String String :=
  groupKeyAux [getField r "Category", getField r "Subcategory", getField r "Measures"]

/-- Pair every record with its group key, propagating the first thrown
error, in iteration order. -/
def keyed : List Record → Except String (List (String × Record))
  | [] => .ok []
  | r :: rs =>
    match keyOf r with
    | .error e => .error e
    | .ok k =>
      match keyed rs with
      | .error e => .error e
      | .ok ps => .ok ((k, r) :: ps)

/-- First-occurrence deduplication with an accumulator of seen keys —
the key order of a JavaScript object built by `groupBy`. -/
def firstSeenAux {α : Type} [DecidableEq α] (seen : List α) : List α → List α
  | [] => []
  | k :: ks =>
    if k ∈ seen then firstSeenAux seen ks
    else k :: firstSeenAux (k :: seen) ks

/-- Keys in first-seen order. -/
def firstSeen {α : Type} [DecidableEq α] (l : List α) : List α := firstSeenAux [] l

/-- Lodash `groupBy` on pre-keyed pairs: buckets in first-seen key
order, each bucket keeping its members in input order. -/
def groupByKeyed {κ β : Type} [DecidableEq κ] (ps : List (κ × β)) : List (κ × List β) :=
  (firstSeen (ps.map Prod.fst)).map
    (fun k => (k, (ps.filter (fun p => p.1 == k)).map Prod.snd))

/-- The grouping engine `grouped` of section 2.3. -/
def grouped (rows : List Record) : Except String (List (String × List Record)) :=
  match keyed rows with
  | .error e => .error e
  | .ok ps => .ok (groupByKeyed ps)

/-- Concatenate the buckets in bucket order. -/
def ungroup : List (String × List Record) → List Record
  | [] => []
  | b :: bs => b.2 ++ ungroup bs

/-- Re-pair every bucket member with its bucket key. -/
def pairsOf : List (String × List Record) → List (String × Record)
  | [] => []
  | b :: bs => b.2.map (fun r => (b.1, r)) ++ pairsOf bs

/-! ### Config resolver (section 2.1 of the source) -/

/-- The four derived lookups: two insertion-ordered sets of
original-cased names and two `Map`s from normalized name to colour. -/
structure ConfigState where
  portSet : List String
  tagSet : List String
  portColours : List (String × String)
  tagColours : List (String × String)

/-- Empty lookups. -/
def initConfig : ConfigState := ⟨[], [], [], []⟩

/-- JavaScript `Map.prototype.set`: overwrite in place or append. -/
def mapSet : List (String × String) → String → String → List (String × String)
  | [], k, v => [(k, v)]
  | (k', v') :: rest, k, v =>
    if k' == k then (k', v) :: rest else (k', v') :: mapSet rest k v

/-- JavaScript `Map.prototype.get`, as an `Option`. -/
def mapGet (m : List (String × String)) (k : String) : Option String :=
  (m.find? (fun p => p.1 == k)).map Prod.snd

/-- JavaScript `Set.prototype.add`: exact-equality deduplication,
insertion order kept. -/
def setAdd (l : List String) (x : String) : List String :=
  if l.contains x then l else l ++ [x]

/-- Row access `r[i]` on a config row (`undefined` past the end). -/
def getCell (r : List Value) (i : Nat) : Value := r.getD i Value.undefined

/-- Portfolio half of one config row: when the (trimmed) column-C name
is truthy, `norm` it — throwing on a non-string — add the original
casing to the set, and record the hex-coerced column-D colour when that
cell is truthy. -/
def applyPort (st : ConfigState) (name colour : Value) : Except String ConfigState :=
  if truthy name then
    match name with
    | .str s =>
      let st1 : ConfigState := { st with portSet := setAdd st.portSet s }
      if truthy colour then
        match colour with
        | .str c => .ok { st1 with portColours := mapSet st1.portColours (normStr s) (jsHexCoerce c) }
        | _ => .error "TypeError: c.startsWith is not a function"
      else .ok st1
    | _ => .error "TypeError: trim(s).toLowerCase is not a function"
  else .ok st

/-- Tag half of one config row (columns A and B), symmetric to
`applyPort`. -/
def applyTag (st : ConfigState) (name colour : Value) : Except String ConfigState :=
  if truthy name then
    match name with
    | .str s =>
      let st1 : ConfigState := { st with tagSet := setAdd st.tagSet s }
      if truthy colour then
        match colour with
        | .str c => .ok { st1 with tagColours := mapSet st1.tagColours (normStr s) (jsHexCoerce c) }
        | _ => .error "TypeError: c.startsWith is not a function"
      else .ok st1
    | _ => .error "TypeError: trim(s).toLowerCase is not a function"
  else .ok st

/-- One iteration of `cfgRows.forEach`: trim the four cells and apply
the portfolio block, then the tag block. -/
def resolveCfgRow (st : ConfigState) (r : List Value) : Except String ConfigState :=
  match applyPort st (trimValue (getCell r 2)) (trimValue (getCell r 3)) with
  | .error e => .error e
  | .ok st1 => applyTag st1 (trimValue (getCell r 0)) (trimValue (getCell r 1))

/-- Fold the config rows left to right. -/
def resolveRows (st : ConfigState) : List (List Value) → Except String ConfigState
  | [] => .ok st
  | r :: rest =>
    match resolveCfgRow st r with
    | .error e => .error e
    | .ok st' => resolveRows st' rest

/-- The config resolver: `const [, ...cfgRows] = cfg` drops the first
row unconditionally, then every remaining row is folded in. -/
def resolveConfig (cfg : List (List Value)) : Except String ConfigState :=
  resolveRows initConfig (cfg.drop 1)

/-! ### Option-list sorting (`[...set].sort()`)

JavaScript `Array.prototype.sort()` without a comparator orders strings
by their code units; on a duplicate-free list the result is the unique
sorted permutation, modelled with `List.insertionSort` over a
lexicographic relation on the character lists. -/

/-- Lexicographic code-unit comparison of character lists. -/
def lexLe : List Char → List Char → Bool
  | [], _ => true
  | _ :: _, [] => false
  | a :: as, b :: bs => if a == b then lexLe as bs else decide (a < b)

/-- The string order used by the default `sort()`. -/
def strLe (a b : String) : Prop := lexLe a.data b.data = true

instance : DecidableRel strLe := fun a b => instDecidableEqBool (lexLe a.data b.data) true

/-- `[...portSet].sort()`. -/
def portfolioOptions (st : ConfigState) : List String :=
  List.insertionSort strLe st.portSet

/-- `[...tagSet].sort()`. -/
def tagOptions (st : ConfigState) : List String :=
  List.insertionSort strLe st.tagSet

/-! ### Status classification (section 2.5 of the source) -/

/-- Field names matching `/^\d{2}\/\d{2}$/` receive the status
classifier. -/
def isStatusField (name : String) : Bool :=
  match name.data with
  | [a, b, '/', c, d] => a.isDigit && b.isDigit && c.isDigit && d.isDigit
  | _ => false

/-- `String(v || '')`: falsy values become the empty string. -/
def jsOrEmpty (v : Value) : String := if truthy v then jsString v else ""

/-- `key.replace(/\s+/g, '-')`: each maximal whitespace run becomes a
single hyphen.  The flag records whether the previous character was
part of a run already replaced. -/
def collapseAux (prevWS : Bool) : List Char → List Char
  | [] => []
  | c :: rest =>
    if isWS c then
      if prevWS then collapseAux true rest
      else '-' :: collapseAux true rest
    else c :: collapseAux false rest

/-- Whitespace-run collapse of the class-name construction. -/
def collapseWS (s : String) : String := String.mk (collapseAux false s.data)

/-- `cellClassName`: `status-` + lowercased value with whitespace runs
hyphenated. -/
def cellClassName (v : Value) : String :=
  "status-" ++ collapseWS (jsToLower (jsOrEmpty v))

/-- The `sx` rules of the grid: class name → background colour, using
the eight `STATUS_BG` entries; any other class gets no styling. -/
def statusClassColor (cls : String) : Option String :=
  if cls = "status-not-started" then some "#e6e6e6"
  else if cls = "status-started" then some "#ffd360"
  else if cls = "status-maintained" then some "#bfe1f6"
  else if cls = "status-delayed" then some "#ff9689"
  else if cls = "status-nearly-completed" then some "#98d55e"
  else if cls = "status-abandoned" then some "#3d3d3d"
  else if cls = "status-completed" then some "#11734b"
  else if cls = "status-on-track" then some "#d4edbc"
  else none

/-- Status colour actually applied to a cell value in a status column. -/
def statusColor (v : Value) : Option String :=
  statusClassColor (cellClassName v)

/-! ### Shared lemmas -/

theorem contains_iff_mem {l : List String} {a : String} :
    l.contains a = true ↔ a ∈ l := by
  simp [List.contains, List.elem_iff]

theorem findHeaderIdx_eq_none (raw : List (List Value))
    (h : ∀ row ∈ raw, ∀ c ∈ row, isMeasureCell c = false) :
    findHeaderIdx raw = none := by
  induction raw with
  | nil => rfl
  | cons row rest ih =>
    have hrow : row.any isMeasureCell = false :=
      List.any_eq_false.mpr (by
        intro c hc
        simp [h row (by simp) c hc])
    simp [findHeaderIdx, hrow]
    exact ih (fun r hr c hc => h r (by simp [hr]) c hc)

/-- C1.  The claim says a sheet with no "measure" row degrades to an
empty record set without throwing; in the source `findIndex` returns
`-1` and `raw[-1].map(...)` throws, so `sheetToRows` errors on such a
sheet. -/
theorem claim1_counterexample :
    isMeasureCell (Value.str "hello") = false ∧
    sheetToRows [[Value.str "hello"]] =
      .error "TypeError: Cannot read properties of undefined (reading map)" :=
  ⟨rfl, rfl⟩

/-- C1 (amended).  For every raw sheet in which no cell's
case-insensitive string form contains "measure", the sheet normalizer
throws a `TypeError` (aborting the load) instead of returning an empty
record set. -/
theorem claim1_theorem (raw : List (List Value))
    (h : ∀ row ∈ raw, ∀ c ∈ row, isMeasureCell c = false) :
    sheetToRows raw =
      .error "TypeError: Cannot read properties of undefined (reading map)" := by
  unfold sheetToRows
  rw [findHeaderIdx_eq_none raw h]

/-- C1 witness: a two-row sheet with no "measure" cell throws. -/
theorem claim1_witness :
    sheetToRows [[Value.str "Introduction"], [Value.str "welcome", Value.num 3]] =
      .error "TypeError: Cannot read properties of undefined (reading map)" :=
  claim1_theorem _ (by decide)

/-- C2.  The export path's `filteredRows` has an empty filter-callback
body in the source, so with the apply-filters flag set every record is
dropped and every tab is skipped — while the Filter Engine of section
4.4 keeps the record under an empty `FilterState`.  Evaluated at the
failing input: one tab `"T"` with one record and no active filters. -/
theorem claim2_theorem :
    exportTables ["T"] (fun _ => [[("id", Value.num 0), ("Measures", Value.str "x")]]) true
      = [] ∧
    filterEngine [[("id", Value.num 0), ("Measures", Value.str "x")]] ⟨[], [], ""⟩
      = [[("id", Value.num 0), ("Measures", Value.str "x")]] ∧
    exportTables ["T"] (fun _ => [[("id", Value.num 0), ("Measures", Value.str "x")]]) false
      = [("T", [[("id", Value.num 0), ("Measures", Value.str "x")]])] ∧
    exportFilename true ≠ exportFilename false :=
  ⟨rfl, rfl, rfl, by decide⟩

/-- C3.  A truthy numeric `Category` value reaches `txt.match` without
string coercion, so the grouping key callback throws. -/
theorem claim3_counterexample :
    keyOf [("id", Value.num 0), ("Category", Value.num 5)] =
      .error "TypeError: txt.match is not a function" :=
  rfl

theorem groupKeyAux_isOk (vs : List Value)
    (h : ∀ v ∈ vs, truthy v = true → ∃ s, v = Value.str s) :
    (groupKeyAux vs).isOk = true := by
  induction vs with
  | nil => rfl
  | cons v rest ih =>
    by_cases hv : truthy v = true
    · obtain ⟨s, rfl⟩ := h v (by simp) hv
      simp only [groupKeyAux, hv, if_true]
      cases hlp : leadingNumPair (jsTrim s) with
      | none => exact ih (fun w hw => h w (by simp [hw]))
      | some p => rfl
    · simp only [groupKeyAux, hv, if_false]
      exact ih (fun w hw => h w (by simp [hw]))

/-- C3 (amended).  Filtering and column derivation coerce values with
`String(...)` and are total, but the grouping key callback only skips
falsy candidate values: when every truthy candidate among `Category`,
`Subcategory`, `Measures` is a string it succeeds, and a truthy
non-string `Category` (e.g. a numeric cell) makes it throw a
`TypeError` instead of degrading to an empty-string comparison. -/
theorem claim3_theorem :
    (∀ r : Record,
      (∀ v ∈ [getField r "Category", getField r "Subcategory", getField r "Measures"],
        truthy v = true → ∃ s, v = Value.str s) →
      (keyOf r).isOk = true) ∧
    (∀ (r : Record) (n : Int), getField r "Category" = Value.num n → n ≠ 0 →
      keyOf r = .error "TypeError: txt.match is not a function") := by
  constructor
  · intro r h
    exact groupKeyAux_isOk _ h
  · intro r n hcat hn
    unfold keyOf
    rw [hcat]
    simp [groupKeyAux, truthy, hn]

/-- C3 witness: a record whose candidate fields are strings (or
missing) gets a group key without an error. -/
theorem claim3_witness :
    (keyOf [("id", Value.num 0), ("Category", Value.str "3.2 Curriculum")]).isOk = true :=
  claim3_theorem.1 _ (by
    intro v hv ht
    rcases List.mem_cons.mp hv with h | hv
    · exact ⟨"3.2 Curriculum", by rw [h]; rfl⟩
    · rcases List.mem_cons.mp hv with h | hv
      · rw [h] at ht
        exact absurd ht (by decide)
      · rcases List.mem_cons.mp hv with h | hv
        · rw [h] at ht
          exact absurd ht (by decide)
        · exact absurd hv (by simp))

/-! ### C6 — config row resolution -/

theorem setAdd_mem_self (l : List String) (x : String) : x ∈ setAdd l x := by
  unfold setAdd
  by_cases h : l.contains x = true
  · rw [if_pos h]
    exact contains_iff_mem.mp h
  · rw [if_neg h]
    simp

theorem mapGet_mapSet_self (m : List (String × String)) (k v : String) :
    mapGet (mapSet m k v) k = some v := by
  induction m with
  | nil => simp [mapSet, mapGet]
  | cons p rest ih =>
    by_cases h : p.1 == k
    · cases p
      simp_all [mapSet, mapGet, List.find?]
    · cases p
      simp_all [mapSet, mapGet, List.find?]

/-- C6.  The config resolver skips the first row unconditionally; a row
of four trimmed non-blank strings records the column-A tag name (set
membership under the original trimmed casing, colour map entry under
the normalized key with the hex-coerced column-B colour) and
symmetrically the column-C portfolio name with the column-D colour; the
spec's concrete scenario holds. -/
theorem claim6_theorem :
    (∀ (r0 : List Value) (rest : List (List Value)),
      resolveConfig (r0 :: rest) = resolveRows initConfig rest) ∧
    (∀ (st : ConfigState) (a b c d : String),
      jsTrim a ≠ "" → jsTrim b ≠ "" → jsTrim c ≠ "" → jsTrim d ≠ "" →
      (resolveCfgRow st [Value.str a, Value.str b, Value.str c, Value.str d]).map
          (fun st' =>
            (st'.tagSet.contains (jsTrim a),
             mapGet st'.tagColours (normStr (jsTrim a)),
             st'.portSet.contains (jsTrim c),
             mapGet st'.portColours (normStr (jsTrim c)))) =
        .ok (true, some (jsHexCoerce (jsTrim b)), true, some (jsHexCoerce (jsTrim d)))) ∧
    (resolveConfig
        [[Value.str "meta"],
         [Value.str "Blue", Value.str "E3F2FD", Value.str "Education", Value.str "003399"]]).map
        (fun st => (mapGet st.tagColours "blue", mapGet st.portColours "education")) =
      .ok (some "#E3F2FD", some "#003399") := by
  refine ⟨fun r0 rest => rfl, ?_, rfl⟩
  intro st a b c d ha hb hc hd
  have ha' : (jsTrim a != "") = true := bne_iff_ne.mpr ha
  have hb' : (jsTrim b != "") = true := bne_iff_ne.mpr hb
  have hc' : (jsTrim c != "") = true := bne_iff_ne.mpr hc
  have hd' : (jsTrim d != "") = true := bne_iff_ne.mpr hd
  simp [resolveCfgRow, getCell, trimValue, applyPort, applyTag, truthy, Except.map,
    ha, hb, hc, hd, setAdd_mem_self, mapGet_mapSet_self]

/-- C6 witness: the scenario row resolved from the empty state. -/
theorem claim6_witness :
    (resolveCfgRow initConfig
        [Value.str "Blue", Value.str "E3F2FD", Value.str "Education", Value.str "003399"]).map
        (fun st' =>
          (st'.tagSet.contains (jsTrim "Blue"),
           mapGet st'.tagColours (normStr (jsTrim "Blue")),
           st'.portSet.contains (jsTrim "Education"),
           mapGet st'.portColours (normStr (jsTrim "Education")))) =
      .ok (true, some "#E3F2FD", true, some "#003399") :=
  claim6_theorem.2.1 initConfig "Blue" "E3F2FD" "Education" "003399"
    (by decide) (by decide) (by decide) (by decide)

/-! ### C8 — colour lookup contents -/

/-- Modelled from the spec: the `#RRGGBB` / `#RGB` shape of section 3's
ColorLookup invariant (the source performs no such validation). -/
def isHexShaped (s : String) : Bool :=
  match s.data with
  | '#' :: rest =>
    (rest.length == 3 || rest.length == 6) &&
      rest.all (fun c => c.isDigit || ('a' ≤ c && c ≤ 'f') || ('A' ≤ c && c ≤ 'F'))
  | _ => false

theorem jsHexCoerce_head (c : String) : (jsHexCoerce c).data.head? = some '#' := by
  unfold jsHexCoerce
  by_cases h : ("#".data).isPrefixOf c.data = true
  · rw [if_pos h]
    cases hd : c.data with
    | nil => rw [hd] at h; exact absurd h (by decide)
    | cons x xs =>
      rw [hd] at h
      have : '#' == x := by
        simpa [List.isPrefixOf] using h
      simp [hd, (beq_iff_eq.mp this).symm]
  · rw [if_neg h]
    rw [String.data_append]
    rfl

/-- Heads of all colour values in a lookup are `#`. -/
def hexHeads (m : List (String × String)) : Prop :=
  ∀ p ∈ m, p.2.data.head? = some '#'

theorem hexHeads_mapSet {m : List (String × String)} {k v : String}
    (hm : hexHeads m) (hv : v.data.head? = some '#') : hexHeads (mapSet m k v) := by
  induction m with
  | nil =>
    intro p hp
    simp only [mapSet, List.mem_singleton] at hp
    rw [hp]
    exact hv
  | cons q rest ih =>
    intro p hp
    by_cases h : q.1 == k
    · cases q
      simp only [mapSet, h, if_true, List.mem_cons] at hp
      rcases hp with rfl | hp
      · exact hv
      · exact hm p (by simp [hp])
    · cases q
      simp only [mapSet, h, Bool.false_eq_true, if_false, List.mem_cons] at hp
      rcases hp with rfl | hp
      · exact hm _ (by simp)
      · exact ih (fun w hw => hm w (by simp [hw])) p hp

theorem applyPort_colours {st st' : ConfigState} {n c : Value}
    (h : applyPort st n c = .ok st') :
    (hexHeads st.portColours → hexHeads st'.portColours) ∧
    st'.tagColours = st.tagColours ∧ st'.tagSet = st.tagSet ∧
    (truthy c = false → st'.portColours = st.portColours) := by
  unfold applyPort at h
  split at h
  · split at h
    · split at h
      · split at h
        · cases h
          refine ⟨fun hm => hexHeads_mapSet hm (jsHexCoerce_head _), rfl, rfl, ?_⟩
          intro hc
          simp_all
        · cases h
      · cases h
        exact ⟨fun hm => hm, rfl, rfl, fun _ => rfl⟩
    · cases h
  · cases h
    exact ⟨fun hm => hm, rfl, rfl, fun _ => rfl⟩

theorem applyTag_colours {st st' : ConfigState} {n c : Value}
    (h : applyTag st n c = .ok st') :
    (hexHeads st.tagColours → hexHeads st'.tagColours) ∧
    st'.portColours = st.portColours ∧ st'.portSet = st.portSet ∧
    (truthy c = false → st'.tagColours = st.tagColours) := by
  unfold applyTag at h
  split at h
  · split at h
    · split at h
      · split at h
        · cases h
          refine ⟨fun hm => hexHeads_mapSet hm (jsHexCoerce_head _), rfl, rfl, ?_⟩
          intro hc
          simp_all
        · cases h
      · cases h
        exact ⟨fun hm => hm, rfl, rfl, fun _ => rfl⟩
    · cases h
  · cases h
    exact ⟨fun hm => hm, rfl, rfl, fun _ => rfl⟩

theorem resolveCfgRow_hexHeads {st st' : ConfigState} {r : List Value}
    (h : resolveCfgRow st r = .ok st') :
    (hexHeads st.portColours → hexHeads st'.portColours) ∧
    (hexHeads st.tagColours → hexHeads st'.tagColours) := by
  unfold resolveCfgRow at h
  split at h
  · cases h
  · rename_i st1 hport
    obtain ⟨hp1, htc1, -, -⟩ := applyPort_colours hport
    obtain ⟨ht2, hpc2, -, -⟩ := applyTag_colours h
    exact ⟨fun hm => hpc2 ▸ hp1 hm, fun hm => ht2 (htc1 ▸ hm)⟩

theorem resolveRows_hexHeads :
    ∀ (rows : List (List Value)) (st st' : ConfigState),
      resolveRows st rows = .ok st' →
      hexHeads st.portColours → hexHeads st.tagColours →
      hexHeads st'.portColours ∧ hexHeads st'.tagColours := by
  intro rows
  induction rows with
  | nil =>
    intro st st' h hp ht
    cases h
    exact ⟨hp, ht⟩
  | cons r rest ih =>
    intro st st' h hp ht
    unfold resolveRows at h
    split at h
    · cases h
    · rename_i st1 hrow
      obtain ⟨h1, h2⟩ := resolveCfgRow_hexHeads hrow
      exact ih st1 st' h (h1 hp) (h2 ht)

/-- C8.  Every colour value stored in either lookup begins with `#`
(the coercion adds the glyph, nothing more), but `#`-prefixed values
need not be `#RRGGBB`/`#RGB`-shaped — a config colour cell `"banana"`
is stored as `"#banana"`. -/
theorem claim8_counterexample :
    (resolveConfig
        [[], [Value.str "Blue", Value.str "banana", Value.str "", Value.str ""]]).map
        (fun st => mapGet st.tagColours "blue") = .ok (some "#banana") ∧
    isHexShaped "#banana" = false :=
  ⟨rfl, rfl⟩

/-- C8 (amended).  After config resolution every colour value stored in
either ColorLookup starts with `#` (hex coercion prefixes `#` when
missing, with no shape validation, so values such as `"#banana"` can be
stored), and a row whose colour cell is blank leaves the corresponding
lookup untouched — blank colours are absent, never stored as null or
empty. -/
theorem claim8_theorem :
    (∀ (cfg : List (List Value)) (st : ConfigState),
      resolveConfig cfg = .ok st →
      (∀ p ∈ st.portColours, p.2.data.head? = some '#') ∧
      (∀ p ∈ st.tagColours, p.2.data.head? = some '#')) ∧
    (∀ (st st' : ConfigState) (r : List Value),
      truthy (trimValue (getCell r 3)) = false →
      resolveCfgRow st r = .ok st' → st'.portColours = st.portColours) ∧
    (∀ (st st' : ConfigState) (r : List Value),
      truthy (trimValue (getCell r 1)) = false →
      resolveCfgRow st r = .ok st' → st'.tagColours = st.tagColours) := by
  refine ⟨?_, ?_, ?_⟩
  · intro cfg st h
    exact resolveRows_hexHeads (cfg.drop 1) initConfig st h
      (by intro p hp; simp [initConfig] at hp) (by intro p hp; simp [initConfig] at hp)
  · intro st st' r hblank h
    unfold resolveCfgRow at h
    split at h
    · cases h
    · rename_i st1 hport
      obtain ⟨-, -, -, hpc⟩ := applyPort_colours hport
      obtain ⟨-, hpc2, -, -⟩ := applyTag_colours h
      rw [hpc2, hpc hblank]
  · intro st st' r hblank h
    unfold resolveCfgRow at h
    split at h
    · cases h
    · rename_i st1 hport
      obtain ⟨-, htc1, -, -⟩ := applyPort_colours hport
      obtain ⟨-, -, -, htc⟩ := applyTag_colours h
      rw [htc hblank, htc1]

/-- C8 witness: the stored coerced colour `"#banana"` starts with `#`. -/
theorem claim8_witness : ("#banana" : String).data.head? = some '#' :=
  (claim8_theorem.1 [[], [Value.str "Blue", Value.str "banana", Value.str "", Value.str ""]]
      ⟨[], ["Blue"], [], [("blue", "#banana")]⟩ rfl).2
    ("blue", "#banana") (by simp)

/-! ### C7 — portfolio predicate -/

/-- C7.  With at least one selected portfolio, a record passes the
portfolio predicate iff some comma-separated part of its `Portfolio`
field matches some selection under normalization; with no selection
every record passes; the spec's include/exclude scenario holds under
the full filter. -/
theorem claim7_theorem :
    (∀ (r : Record) (sels : List String), sels ≠ [] →
      (portfolioPred r sels = true ↔
        ∃ part ∈ splitComma (jsString (getField r "Portfolio")),
          ∃ sel ∈ sels, normStr part = normStr sel)) ∧
    (∀ r : Record, portfolioPred r [] = true) ∧
    (passesFilter [("id", Value.num 0), ("Portfolio", Value.str "Health, Labour")]
        ⟨["Education"], [], ""⟩ = false ∧
     passesFilter [("id", Value.num 0), ("Portfolio", Value.str "Labour, Education")]
        ⟨["Education"], [], ""⟩ = true) := by
  refine ⟨?_, fun r => rfl, rfl, rfl⟩
  intro r sels hne
  unfold portfolioPred
  rw [List.isEmpty_eq_false.mpr hne]
  simp only [Bool.false_or, List.any_eq_true, List.mem_map, rowPortfolios]
  constructor
  · rintro ⟨p, ⟨sel, hsel, rfl⟩, hcont⟩
    obtain ⟨part, hpart, heq⟩ := List.mem_map.mp (contains_iff_mem.mp hcont)
    exact ⟨part, hpart, sel, hsel, heq⟩
  · rintro ⟨part, hpart, sel, hsel, heq⟩
    refine ⟨normStr sel, ⟨sel, hsel, rfl⟩, contains_iff_mem.mpr ?_⟩
    exact List.mem_map.mpr ⟨part, hpart, heq⟩

/-- C7 witness: selecting "Education" keeps a record whose `Portfolio`
is "Labour, Education". -/
theorem claim7_witness :
    portfolioPred [("id", Value.num 0), ("Portfolio", Value.str "Labour, Education")]
      ["Education"] = true :=
  (claim7_theorem.1 _ ["Education"] (by decide)).mpr
    ⟨" Education", by decide, "Education", by simp, by decide⟩

/-! ### C10 — free-text predicate over all values -/

theorem digitChar_toLower (d : Nat) : Char.toLower (digitChar d) = digitChar d := by
  unfold digitChar
  split <;> decide

theorem natDecimalAux_map_toLower :
    ∀ (fuel n : Nat) (acc : List Char), acc.map Char.toLower = acc →
      (natDecimalAux fuel n acc).map Char.toLower = natDecimalAux fuel n acc := by
  intro fuel
  induction fuel with
  | zero => intro n acc h; exact h
  | succ fuel ih =>
    intro n acc h
    unfold natDecimalAux
    by_cases hn : n < 10
    · simp [hn, digitChar_toLower, h]
    · simp only [hn, if_false]
      exact ih (n / 10) _ (by simp [digitChar_toLower, h])

theorem jsToLower_natDecimal (n : Nat) : jsToLower (natDecimal n) = natDecimal n := by
  unfold jsToLower natDecimal
  congr 1
  exact natDecimalAux_map_toLower (n + 1) n [] rfl

/-- C10.  The free-text predicate inspects the string form of every
property value of the record — the synthetic `id` included — so a
non-empty query whose lowercase form is a substring of the record's
decimal `id` string makes the record pass the filter (with no portfolio
or tag selections), irrespective of the other field values. -/
theorem claim10_theorem :
    (∀ (r : Record) (q : String), q ≠ "" →
      (queryPred r q = true ↔
        ∃ v ∈ recordValues r,
          strIncludes (jsToLower (jsString v)) (jsToLower q) = true)) ∧
    (∀ (r : Record) (q : String) (n : Nat),
      ("id", Value.num (Int.ofNat n)) ∈ r → q ≠ "" →
      strIncludes (natDecimal n) (jsToLower q) = true →
      passesFilter r ⟨[], [], q⟩ = true) := by
  constructor
  · intro r q hq
    unfold queryPred
    rw [beq_eq_false_iff_ne.mpr hq]
    simp [List.any_eq_true]
  · intro r q n hid hq hsub
    have hmem : Value.num (Int.ofNat n) ∈ recordValues r :=
      List.mem_map.mpr ⟨("id", Value.num (Int.ofNat n)), hid, rfl⟩
    have hstr : jsString (Value.num (Int.ofNat n)) = natDecimal n := by
      simp [jsString, intDecimal, Int.toNat_ofNat]
    unfold passesFilter portfolioPred tagPred queryPred
    rw [beq_eq_false_iff_ne.mpr hq]
    simp only [List.isEmpty_nil, Bool.true_or, Bool.true_and, Bool.false_or]
    exact List.any_eq_true.mpr
      ⟨Value.num (Int.ofNat n), hmem, by rw [hstr, jsToLower_natDecimal]; exact hsub⟩

/-- C10 witness: query "5" matches a record only through its `id` 5. -/
theorem claim10_witness :
    passesFilter [("id", Value.num 5), ("Measures", Value.str "abc")] ⟨[], [], "5"⟩ = true :=
  claim10_theorem.2 [("id", Value.num 5), ("Measures", Value.str "abc")] "5" 5
    (by simp) (by decide) (by decide)

/-! ### C5 — status classification -/

theorem statusAppend_inj (x y : String) :
    ("status-" ++ x = "status-" ++ y) ↔ x = y := by
  constructor
  · intro h
    have hd := congrArg String.data h
    rw [String.data_append, String.data_append] at hd
    exact String.ext (List.append_cancel_left hd)
  · intro h
    rw [h]

/-- C5.  The classifier builds a class name by hyphenating whitespace
runs, so the value `"on-track"` — which is not in the enumerated status
set — still collides with the `on track` class and receives its status
colour, contradicting "unrecognized values receive no status color". -/
theorem claim5_counterexample :
    statusColor (Value.str "on-track") = some "#d4edbc" ∧
    ("on-track" ∉ ["not started", "started", "maintained", "delayed", "on track",
      "nearly completed", "abandoned", "completed"]) :=
  ⟨rfl, by decide⟩

/-- C5 (amended).  A cell whose lowercased trimmed value is "on track"
classifies to the `on track` status colour regardless of casing and
surrounding whitespace (the surrounding whitespace being removed at
normalization time); and a value receives a status colour iff its
lowercased form with whitespace runs collapsed to single hyphens equals
the hyphenated form of one of the eight statuses — so hyphenated
variants such as `"on-track"` also classify, and all other values
receive no colour. -/
theorem claim5_theorem :
    (∀ s : String, jsToLower (jsTrim s) = "on track" →
      statusColor (trimValue (Value.str s)) = some "#d4edbc") ∧
    (∀ v : Value, (statusColor v).isSome = true ↔
      collapseWS (jsToLower (jsOrEmpty v)) ∈
        ["not-started", "started", "maintained", "delayed", "nearly-completed",
         "abandoned", "completed", "on-track"]) := by
  constructor
  · intro s h
    have ht : jsTrim s ≠ "" := by
      intro h0
      rw [h0] at h
      exact absurd h (by decide)
    simp only [statusColor, cellClassName, trimValue, jsOrEmpty, truthy, jsString]
    rw [if_pos (bne_iff_ne.mpr ht), h]
    rfl
  · intro v
    unfold statusColor statusClassColor cellClassName
    have e1 : ("status-" ++ collapseWS (jsToLower (jsOrEmpty v)) = "status-not-started") ↔
        collapseWS (jsToLower (jsOrEmpty v)) = "not-started" := statusAppend_inj _ _
    have e2 : ("status-" ++ collapseWS (jsToLower (jsOrEmpty v)) = "status-started") ↔
        collapseWS (jsToLower (jsOrEmpty v)) = "started" := statusAppend_inj _ _
    have e3 : ("status-" ++ collapseWS (jsToLower (jsOrEmpty v)) = "status-maintained") ↔
        collapseWS (jsToLower (jsOrEmpty v)) = "maintained" := statusAppend_inj _ _
    have e4 : ("status-" ++ collapseWS (jsToLower (jsOrEmpty v)) = "status-delayed") ↔
        collapseWS (jsToLower (jsOrEmpty v)) = "delayed" := statusAppend_inj _ _
    have e5 : ("status-" ++ collapseWS (jsToLower (jsOrEmpty v)) = "status-nearly-completed") ↔
        collapseWS (jsToLower (jsOrEmpty v)) = "nearly-completed" := statusAppend_inj _ _
    have e6 : ("status-" ++ collapseWS (jsToLower (jsOrEmpty v)) = "status-abandoned") ↔
        collapseWS (jsToLower (jsOrEmpty v)) = "abandoned" := statusAppend_inj _ _
    have e7 : ("status-" ++ collapseWS (jsToLower (jsOrEmpty v)) = "status-completed") ↔
        collapseWS (jsToLower (jsOrEmpty v)) = "completed" := statusAppend_inj _ _
    have e8 : ("status-" ++ collapseWS (jsToLower (jsOrEmpty v)) = "status-on-track") ↔
        collapseWS (jsToLower (jsOrEmpty v)) = "on-track" := statusAppend_inj _ _
    simp only [e1, e2, e3, e4, e5, e6, e7, e8]
    split_ifs with h1 h2 h3 h4 h5 h6 h7 h8 <;> simp_all

/-- C5 witness: `"  On TRACK "`, trimmed at record creation, classifies
to the `on track` colour. -/
theorem claim5_witness :
    statusColor (trimValue (Value.str "  On TRACK ")) = some "#d4edbc" :=
  claim5_theorem.1 "  On TRACK " (by decide)

/-! ### C4 — option lists -/

theorem lexLe_total : ∀ as bs : List Char, lexLe as bs = true ∨ lexLe bs as = true := by
  intro as
  induction as with
  | nil => intro bs; left; rfl
  | cons a as ih =>
    intro bs
    cases bs with
    | nil => right; rfl
    | cons b bs =>
      by_cases hab : a = b
      · subst hab
        rcases ih bs with h | h
        · left; simpa [lexLe] using h
        · right; simpa [lexLe] using h
      · rcases lt_or_gt_of_ne hab with hlt | hgt
        · left; simp [lexLe, hab, hlt]
        · right; simp [lexLe, Ne.symm hab, hgt]

theorem lexLe_trans : ∀ as bs cs : List Char,
    lexLe as bs = true → lexLe bs cs = true → lexLe as cs = true := by
  intro as
  induction as with
  | nil => intro bs cs h1 h2; rfl
  | cons a as ih =>
    intro bs cs h1 h2
    cases bs with
    | nil => simp [lexLe] at h1
    | cons b bs =>
      cases cs with
      | nil => simp [lexLe] at h2
      | cons c cs =>
        by_cases hab : a = b
        · subst hab
          simp only [lexLe, beq_self_eq_true, if_true] at h1
          by_cases hac : a = c
          · subst hac
            simp only [lexLe, beq_self_eq_true, if_true] at h2 ⊢
            exact ih bs cs h1 h2
          · simp only [lexLe, beq_iff_eq, hac, if_false] at h2 ⊢
            exact h2
        · simp only [lexLe, beq_iff_eq, hab, if_false, decide_eq_true_eq] at h1
          by_cases hbc : b = c
          · subst hbc
            simp [lexLe, hab, h1]
          · simp only [lexLe, beq_iff_eq, hbc, if_false, decide_eq_true_eq] at h2
            have hac : a < c := lt_trans h1 h2
            simp [lexLe, ne_of_lt hac, hac]

instance : IsTotal String strLe :=
  ⟨fun a b => by
    rcases lexLe_total a.data b.data with h | h
    · exact Or.inl h
    · exact Or.inr h⟩

instance : IsTrans String strLe :=
  ⟨fun a b c h1 h2 => lexLe_trans a.data b.data c.data h1 h2⟩

theorem setAdd_nodup {l : List String} (hl : l.Nodup) (x : String) :
    (setAdd l x).Nodup := by
  unfold setAdd
  by_cases h : l.contains x = true
  · rw [if_pos h]
    exact hl
  · rw [if_neg h]
    have hx : x ∉ l := fun hm => h (contains_iff_mem.mpr hm)
    rw [List.nodup_append]
    refine ⟨hl, List.nodup_singleton x, ?_⟩
    intro a ha hb
    rw [List.mem_singleton.mp hb] at ha
    exact hx ha

theorem applyPort_sets {st st' : ConfigState} {n c : Value}
    (h : applyPort st n c = .ok st') :
    (st.portSet.Nodup → st'.portSet.Nodup) ∧ st'.tagSet = st.tagSet := by
  unfold applyPort at h
  split at h
  · split at h
    · split at h
      · split at h
        · cases h
          exact ⟨fun hn => setAdd_nodup hn _, rfl⟩
        · cases h
      · cases h
        exact ⟨fun hn => setAdd_nodup hn _, rfl⟩
    · cases h
  · cases h
    exact ⟨fun hn => hn, rfl⟩

theorem applyTag_sets {st st' : ConfigState} {n c : Value}
    (h : applyTag st n c = .ok st') :
    (st.tagSet.Nodup → st'.tagSet.Nodup) ∧ st'.portSet = st.portSet := by
  unfold applyTag at h
  split at h
  · split at h
    · split at h
      · split at h
        · cases h
          exact ⟨fun hn => setAdd_nodup hn _, rfl⟩
        · cases h
      · cases h
        exact ⟨fun hn => setAdd_nodup hn _, rfl⟩
    · cases h
  · cases h
    exact ⟨fun hn => hn, rfl⟩

theorem resolveRows_nodup :
    ∀ (rows : List (List Value)) (st st' : ConfigState),
      resolveRows st rows = .ok st' →
      st.portSet.Nodup → st.tagSet.Nodup →
      st'.portSet.Nodup ∧ st'.tagSet.Nodup := by
  intro rows
  induction rows with
  | nil =>
    intro st st' h hp ht
    cases h
    exact ⟨hp, ht⟩
  | cons r rest ih =>
    intro st st' h hp ht
    unfold resolveRows at h
    split at h
    · cases h
    · rename_i st1 hrow
      unfold resolveCfgRow at hrow
      split at hrow
      · cases hrow
      · rename_i stp hport
        obtain ⟨hp1, hts1⟩ := applyPort_sets hport
        obtain ⟨ht2, hps2⟩ := applyTag_sets hrow
        exact ih st1 st' h (hps2 ▸ hp1 hp) (ht2 (hts1 ▸ ht))

/-- C4.  Config rows "Education" and "EDUCATION" both survive into the
exposed portfolio option list: deduplication is by exact string, not by
normalized key, so the list is not duplicate-free under normalized
equality. -/
theorem claim4_counterexample :
    (resolveConfig
        [[], [Value.str "", Value.str "", Value.str "Education", Value.str ""],
         [Value.str "", Value.str "", Value.str "EDUCATION", Value.str ""]]).map
        portfolioOptions = .ok ["EDUCATION", "Education"] ∧
    normStr "EDUCATION" = normStr "Education" ∧ ("EDUCATION" : String) ≠ "Education" :=
  ⟨rfl, rfl, by decide⟩

/-- C4 (amended).  After config resolution the exposed portfolio and
tag option lists are each sorted in plain lexicographic (code-unit)
order on the original string and duplicate-free under **exact** string
equality; names equal only after normalization (trimming or case
folding) may each appear, since the `Set` deduplicates original-cased
names. -/
theorem claim4_theorem (cfg : List (List Value)) (st : ConfigState)
    (h : resolveConfig cfg = .ok st) :
    (portfolioOptions st).Sorted strLe ∧ (portfolioOptions st).Nodup ∧
    (tagOptions st).Sorted strLe ∧ (tagOptions st).Nodup := by
  obtain ⟨hp, ht⟩ := resolveRows_nodup (cfg.drop 1) initConfig st h
    List.nodup_nil List.nodup_nil
  exact ⟨List.sorted_insertionSort strLe st.portSet,
    (List.perm_insertionSort strLe st.portSet).nodup_iff.mpr hp,
    List.sorted_insertionSort strLe st.tagSet,
    (List.perm_insertionSort strLe st.tagSet).nodup_iff.mpr ht⟩

/-- C4 witness: the sorted distinct option lists of the two-row config. -/
theorem claim4_witness :
    (portfolioOptions ⟨["Education", "EDUCATION"], [], [], []⟩).Sorted strLe ∧
    (portfolioOptions ⟨["Education", "EDUCATION"], [], [], []⟩).Nodup ∧
    (tagOptions ⟨["Education", "EDUCATION"], [], [], []⟩).Sorted strLe ∧
    (tagOptions ⟨["Education", "EDUCATION"], [], [], []⟩).Nodup :=
  claim4_theorem
    [[], [Value.str "", Value.str "", Value.str "Education", Value.str ""],
     [Value.str "", Value.str "", Value.str "EDUCATION", Value.str ""]]
    ⟨["Education", "EDUCATION"], [], [], []⟩ rfl

/-! ### C9 — grouping idempotence -/

theorem pairsOf_fst_mem :
    ∀ {bs : List (String × List Record)} {p : String × Record},
      p ∈ pairsOf bs → p.1 ∈ bs.map Prod.fst := by
  intro bs
  induction bs with
  | nil => intro p hp; simp [pairsOf] at hp
  | cons b rest ih =>
    intro p hp
    simp only [pairsOf, List.mem_append] at hp
    rcases hp with hp | hp
    · obtain ⟨r, hr, rfl⟩ := List.mem_map.mp hp
      simp
    · simp [ih hp]

theorem mem_of_mem_pairsOf :
    ∀ {bs : List (String × List Record)} {p : String × Record},
      p ∈ pairsOf bs → ∃ ms, (p.1, ms) ∈ bs ∧ p.2 ∈ ms := by
  intro bs
  induction bs with
  | nil => intro p hp; simp [pairsOf] at hp
  | cons b rest ih =>
    intro p hp
    simp only [pairsOf, List.mem_append] at hp
    rcases hp with hp | hp
    · obtain ⟨r, hr, rfl⟩ := List.mem_map.mp hp
      exact ⟨b.2, by simp, hr⟩
    · obtain ⟨ms, h1, h2⟩ := ih hp
      exact ⟨ms, List.mem_cons_of_mem _ h1, h2⟩

theorem firstSeenAux_cons {α : Type} [DecidableEq α] (seen : List α) (k : α) (ks : List α) :
    firstSeenAux seen (k :: ks) =
      if k ∈ seen then firstSeenAux seen ks else k :: firstSeenAux (k :: seen) ks := rfl

theorem firstSeenAux_mem {α : Type} [DecidableEq α] :
    ∀ (ks seen : List α) (x : α), x ∈ firstSeenAux seen ks → x ∈ ks := by
  intro ks
  induction ks with
  | nil => intro seen x h; simp [firstSeenAux] at h
  | cons k ks ih =>
    intro seen x h
    unfold firstSeenAux at h
    by_cases hk : k ∈ seen
    · rw [if_pos hk] at h
      exact List.mem_cons_of_mem k (ih seen x h)
    · rw [if_neg hk] at h
      rcases List.mem_cons.mp h with rfl | h
      · exact List.mem_cons_self _ _
      · exact List.mem_cons_of_mem k (ih (k :: seen) x h)

theorem firstSeenAux_not_seen {α : Type} [DecidableEq α] :
    ∀ (ks seen : List α) (x : α), x ∈ firstSeenAux seen ks → x ∉ seen := by
  intro ks
  induction ks with
  | nil => intro seen x h; simp [firstSeenAux] at h
  | cons k ks ih =>
    intro seen x h
    unfold firstSeenAux at h
    by_cases hk : k ∈ seen
    · rw [if_pos hk] at h
      exact ih seen x h
    · rw [if_neg hk] at h
      rcases List.mem_cons.mp h with rfl | h
      · exact hk
      · intro hx
        exact ih (k :: seen) x h (List.mem_cons_of_mem k hx)

theorem firstSeenAux_nodup {α : Type} [DecidableEq α] :
    ∀ (ks seen : List α), (firstSeenAux seen ks).Nodup := by
  intro ks
  induction ks with
  | nil => intro seen; exact List.nodup_nil
  | cons k ks ih =>
    intro seen
    unfold firstSeenAux
    by_cases hk : k ∈ seen
    · rw [if_pos hk]
      exact ih seen
    · rw [if_neg hk]
      refine List.nodup_cons.mpr ⟨?_, ih (k :: seen)⟩
      intro hmem
      exact firstSeenAux_not_seen ks (k :: seen) k hmem (List.mem_cons_self _ _)

theorem firstSeenAux_append_seen {α : Type} [DecidableEq α] :
    ∀ (xs seen ys : List α), (∀ x ∈ xs, x ∈ seen) →
      firstSeenAux seen (xs ++ ys) = firstSeenAux seen ys := by
  intro xs
  induction xs with
  | nil => intro seen ys _; rfl
  | cons x xs ih =>
    intro seen ys h
    rw [List.cons_append, firstSeenAux_cons, if_pos (h x (by simp))]
    exact ih seen ys (fun y hy => h y (by simp [hy]))

theorem pairsOf_firstSeen :
    ∀ (bs : List (String × List Record)) (seen : List String),
      (bs.map Prod.fst).Nodup → (∀ b ∈ bs, b.2 ≠ []) →
      (∀ k ∈ bs.map Prod.fst, k ∉ seen) →
      firstSeenAux seen ((pairsOf bs).map Prod.fst) = bs.map Prod.fst := by
  intro bs
  induction bs with
  | nil => intro seen _ _ _; rfl
  | cons b rest ih =>
    intro seen hnd hne hdisj
    obtain ⟨k, ms⟩ := b
    cases ms with
    | nil => exact absurd rfl (hne (k, []) (by simp))
    | cons m ms =>
      have hk_not : k ∉ seen := hdisj k (by simp)
      have hnd' : (rest.map Prod.fst).Nodup := (List.nodup_cons.mp (by simpa using hnd)).2
      have hk_rest : k ∉ rest.map Prod.fst := (List.nodup_cons.mp (by simpa using hnd)).1
      simp only [pairsOf, List.map_cons, List.map_append, List.map_map, List.cons_append]
      unfold firstSeenAux
      rw [if_neg hk_not]
      have hskip : firstSeenAux (k :: seen)
          ((ms.map (Prod.fst ∘ fun r => (k, r))) ++ (pairsOf rest).map Prod.fst) =
          firstSeenAux (k :: seen) ((pairsOf rest).map Prod.fst) := by
        refine firstSeenAux_append_seen _ _ _ ?_
        intro x hx
        obtain ⟨r, hr, rfl⟩ := List.mem_map.mp hx
        simp
      rw [hskip]
      have hdisj' : ∀ k' ∈ rest.map Prod.fst, k' ∉ k :: seen := by
        intro k' hk' hcontra
        rcases List.mem_cons.mp hcontra with rfl | hmem
        · exact hk_rest hk'
        · exact hdisj k' (by simp [hk']) hmem
      rw [ih (k :: seen) hnd' (fun q hq => hne q (by simp [hq])) hdisj']

theorem pairsOf_filter :
    ∀ (bs : List (String × List Record)), (bs.map Prod.fst).Nodup →
      ∀ (k : String) (ms : List Record), (k, ms) ∈ bs →
        (pairsOf bs).filter (fun p => p.1 == k) = ms.map (fun r => (k, r)) := by
  intro bs
  induction bs with
  | nil => intro _ k ms h; simp at h
  | cons b rest ih =>
    intro hnd k ms hmem
    obtain ⟨k0, ms0⟩ := b
    have hnd' : (rest.map Prod.fst).Nodup := (List.nodup_cons.mp (by simpa using hnd)).2
    have hk0_rest : k0 ∉ rest.map Prod.fst := (List.nodup_cons.mp (by simpa using hnd)).1
    simp only [pairsOf, List.filter_append]
    rcases List.mem_cons.mp hmem with heq | hmem2
    · injection heq with h1 h2
      subst h1
      subst h2
      have h1 : (ms.map (fun r => (k, r))).filter (fun p => p.1 == k) =
          ms.map (fun r => (k, r)) := by
        refine List.filter_eq_self.mpr ?_
        intro p hp
        obtain ⟨r, hr, rfl⟩ := List.mem_map.mp hp
        simp
      have h2 : (pairsOf rest).filter (fun p => p.1 == k) = [] := by
        refine List.filter_eq_nil_iff.mpr ?_
        intro p hp hbeq
        exact hk0_rest (beq_iff_eq.mp hbeq ▸ pairsOf_fst_mem hp)
      rw [h1, h2, List.append_nil]
    · have hk0 : k ≠ k0 := by
        rintro rfl
        exact hk0_rest (List.mem_map.mpr ⟨(k, ms), hmem2, rfl⟩)
      have h1 : (ms0.map (fun r => (k0, r))).filter (fun p => p.1 == k) = [] := by
        refine List.filter_eq_nil_iff.mpr ?_
        intro p hp hbeq
        obtain ⟨r, hr, rfl⟩ := List.mem_map.mp hp
        exact hk0 (beq_iff_eq.mp hbeq).symm
      rw [h1, List.nil_append]
      exact ih hnd' k ms hmem2

theorem groupByKeyed_map_fst (ps : List (String × Record)) :
    (groupByKeyed ps).map Prod.fst = firstSeen (ps.map Prod.fst) := by
  unfold groupByKeyed
  rw [List.map_map]
  have hid : ∀ k ∈ firstSeen (ps.map Prod.fst),
      (Prod.fst ∘ fun k => (k, (ps.filter (fun p => p.1 == k)).map Prod.snd)) k = id k :=
    fun k _ => rfl
  rw [List.map_congr_left hid, List.map_id]

theorem groupByKeyed_nodup_fst (ps : List (String × Record)) :
    ((groupByKeyed ps).map Prod.fst).Nodup := by
  rw [groupByKeyed_map_fst]
  exact firstSeenAux_nodup _ _

theorem groupByKeyed_buckets_ne_nil (ps : List (String × Record)) :
    ∀ b ∈ groupByKeyed ps, b.2 ≠ [] := by
  intro b hb
  unfold groupByKeyed at hb
  obtain ⟨k, hk, rfl⟩ := List.mem_map.mp hb
  have hkmem : k ∈ ps.map Prod.fst := firstSeenAux_mem _ _ _ hk
  obtain ⟨p, hp, rfl⟩ := List.mem_map.mp hkmem
  intro hnil
  rw [List.map_eq_nil_iff] at hnil
  have hin : p ∈ ps.filter (fun q => q.1 == p.1) := List.mem_filter.mpr ⟨hp, by simp⟩
  rw [hnil] at hin
  simp at hin

theorem pairsOf_groupByKeyed_sub (ps : List (String × Record)) :
    ∀ p ∈ pairsOf (groupByKeyed ps), p ∈ ps := by
  intro p hp
  obtain ⟨ms, hbmem, hpmem⟩ := mem_of_mem_pairsOf hp
  unfold groupByKeyed at hbmem
  obtain ⟨k, hk, heq⟩ := List.mem_map.mp hbmem
  injection heq with h1 h2
  subst h1
  rw [← h2] at hpmem
  obtain ⟨q, hq, hq2⟩ := List.mem_map.mp hpmem
  have hq1 : q.1 = p.1 := beq_iff_eq.mp (List.mem_filter.mp hq).2
  have : q = p := Prod.ext hq1 hq2
  rw [← this]
  exact (List.mem_filter.mp hq).1

theorem groupByKeyed_idem (ps : List (String × Record)) :
    groupByKeyed (pairsOf (groupByKeyed ps)) = groupByKeyed ps := by
  have hnd : ((groupByKeyed ps).map Prod.fst).Nodup := groupByKeyed_nodup_fst ps
  have hne : ∀ b ∈ groupByKeyed ps, b.2 ≠ [] := groupByKeyed_buckets_ne_nil ps
  have hfs : firstSeen ((pairsOf (groupByKeyed ps)).map Prod.fst) =
      (groupByKeyed ps).map Prod.fst :=
    pairsOf_firstSeen (groupByKeyed ps) [] hnd hne (by simp)
  show (firstSeen ((pairsOf (groupByKeyed ps)).map Prod.fst)).map
      (fun k => (k, ((pairsOf (groupByKeyed ps)).filter (fun p => p.1 == k)).map Prod.snd)) =
    groupByKeyed ps
  rw [hfs, groupByKeyed_map_fst]
  have target : groupByKeyed ps = (firstSeen (ps.map Prod.fst)).map
      (fun k => (k, (ps.filter (fun p => p.1 == k)).map Prod.snd)) := rfl
  conv_rhs => rw [target]
  refine List.map_congr_left ?_
  intro k hk
  have hbmem : (k, (ps.filter (fun p => p.1 == k)).map Prod.snd) ∈ groupByKeyed ps := by
    unfold groupByKeyed
    exact List.mem_map.mpr ⟨k, hk, rfl⟩
  have hfil := pairsOf_filter (groupByKeyed ps) hnd k _ hbmem
  rw [hfil, List.map_map]
  simp

theorem keyed_ok_spec :
    ∀ {rs : List Record} {ps : List (String × Record)},
      keyed rs = .ok ps → ∀ p ∈ ps, keyOf p.2 = .ok p.1 := by
  intro rs
  induction rs with
  | nil =>
    intro ps h p hp
    cases h
    simp at hp
  | cons r rs ih =>
    intro ps h p hp
    unfold keyed at h
    split at h
    · cases h
    · rename_i k hk
      split at h
      · cases h
      · rename_i ps' hps
        cases h
        rcases List.mem_cons.mp hp with rfl | hp
        · exact hk
        · exact ih hps p hp

theorem keyed_of_spec :
    ∀ (ps : List (String × Record)), (∀ p ∈ ps, keyOf p.2 = .ok p.1) →
      keyed (ps.map Prod.snd) = .ok ps := by
  intro ps
  induction ps with
  | nil => intro _; rfl
  | cons p ps ih =>
    intro h
    show keyed (p.2 :: List.map Prod.snd ps) = .ok (p :: ps)
    unfold keyed
    rw [h p (by simp), ih (fun q hq => h q (by simp [hq]))]

theorem ungroup_eq_pairsOf_map_snd :
    ∀ bs : List (String × List Record), ungroup bs = (pairsOf bs).map Prod.snd := by
  intro bs
  induction bs with
  | nil => rfl
  | cons b rest ih =>
    simp [ungroup, pairsOf, List.map_append, List.map_map, ih]

/-- C9.  Grouping is idempotent: whenever grouping a record sequence
succeeds, concatenating the buckets in bucket order and grouping the
flattened sequence again yields exactly the same buckets — same keys in
the same first-seen order and the same members in the same order. -/
theorem claim9_theorem (rs : List Record) (bs : List (String × List Record))
    (h : grouped rs = .ok bs) : grouped (ungroup bs) = .ok bs := by
  unfold grouped at h
  split at h
  · cases h
  · rename_i ps hps
    cases h
    have hspec : ∀ p ∈ ps, keyOf p.2 = .ok p.1 := keyed_ok_spec hps
    have hspec2 : ∀ p ∈ pairsOf (groupByKeyed ps), keyOf p.2 = .ok p.1 :=
      fun p hp => hspec p (pairsOf_groupByKeyed_sub ps p hp)
    have hkey : keyed (ungroup (groupByKeyed ps)) = .ok (pairsOf (groupByKeyed ps)) := by
      rw [ungroup_eq_pairsOf_map_snd]
      exact keyed_of_spec _ hspec2
    unfold grouped
    rw [hkey]
    show Except.ok (groupByKeyed (pairsOf (groupByKeyed ps))) = _
    rw [groupByKeyed_idem]

/-- C9 witness: the two-bucket grouping of a numeric-prefixed and an
unprefixed record, regrouped from its own flattening. -/
theorem claim9_witness :
    grouped (ungroup
        [("3.2", [[("id", Value.num 0), ("Category", Value.str "3.2 Curriculum")]]),
         ("—", [[("id", Value.num 1), ("Category", Value.str "Intro")]])]) =
      .ok [("3.2", [[("id", Value.num 0), ("Category", Value.str "3.2 Curriculum")]]),
           ("—", [[("id", Value.num 1), ("Category", Value.str "Intro")]])] :=
  claim9_theorem
    [[("id", Value.num 0), ("Category", Value.str "3.2 Curriculum")],
     [("id", Value.num 1), ("Category", Value.str "Intro")]]
    [("3.2", [[("id", Value.num 0), ("Category", Value.str "3.2 Curriculum")]]),
     ("—", [[("id", Value.num 1), ("Category", Value.str "Intro")]])]
    (by rfl)

end NationalStrategy
